import Mathlib

/-!
Shallow embedding of the CSV payout-report generator (src/main.py).

The program reads comma-separated employee files, validates rows into
records, and renders one of two text reports.  File IO is external to the
embedding: a file is represented by its list of lines (the result of
readlines, existence checks are outside the modelled core).  Python floats
are modelled as exact fractions (`Frac`, an integer numerator over a
natural denominator, kept unnormalized so that every operation reduces in
the kernel); row values reaching the pipeline are decimal literals, for
which this model is exact.  Printed diagnostics are modelled as values of
an explicit `Diag` type carrying the reported line number, and report
output as the list of printed lines.
-/

namespace CsvReport

/-! ### Python string primitives -/

/-- Whitespace characters removed by the Python strip method. -/
def isPySpace (c : Char) : Bool :=
  c == ' ' || c == '\t' || c == '\n' || c == '\r' || c == '\x0b' || c == '\x0c'

/-- Drop leading and trailing whitespace from a character list. -/
def pyStripChars (cs : List Char) : List Char :=
  ((cs.dropWhile isPySpace).reverse.dropWhile isPySpace).reverse

/-- Python str.strip with no argument. -/
def pyStrip (s : String) : String := String.mk (pyStripChars s.data)

/-- Split a character list on commas; an empty list yields one empty field,
mirroring the Python split method. -/
def splitCommaChars : List Char → List (List Char)
  | [] => [[]]
  | c :: rest =>
    let r := splitCommaChars rest
    if c = ',' then [] :: r
    else
      match r with
      | [] => [[c]]
      | g :: gs => (c :: g) :: gs

/-- Python str.split on the comma separator (CSV_SEPARATOR in the source). -/
def splitComma (s : String) : List String := (splitCommaChars s.data).map String.mk

/-- Left-justify a string in a field of width w, as the Python format spec
with a less-than alignment: pad on the right with spaces, never truncate. -/
def padRightTo (s : String) (w : Nat) : String :=
  s ++ String.mk (List.replicate (w - s.length) ' ')

/-- Decimal digit character for a value below ten. -/
def digitChar (d : Nat) : Char := Char.ofNat (48 + d)

/-- Decimal digits of a positive number, most significant first; the first
argument is fuel bounding the recursion depth. -/
def natDigitsAux : Nat → Nat → List Char
  | 0, _ => []
  | fuel + 1, n => if n = 0 then [] else natDigitsAux fuel (n / 10) ++ [digitChar (n % 10)]

/-- Decimal rendering of a natural number. -/
def natToStr (n : Nat) : String :=
  if n = 0 then "0" else String.mk (natDigitsAux (n + 1) n)

/-- Decimal rendering of an integer. -/
def intToStr (i : Int) : String :=
  if i < 0 then "-" ++ natToStr i.natAbs else natToStr i.natAbs

/-- Pad a string on the left with zeros up to width w. -/
def zeroPadTo (s : String) (w : Nat) : String :=
  String.mk (List.replicate (w - s.length) '0') ++ s

/-- Numeric value of a list of decimal digit characters. -/
def digitsToNat (cs : List Char) : Nat :=
  cs.foldl (fun a c => 10 * a + (c.toNat - 48)) 0

/-- Join strings with a single tab between consecutive items and no trailing
tab, as the report-building loops of the source do. -/
def joinTab : List String → String
  | [] => ""
  | [s] => s
  | s :: rest => s ++ "\t" ++ joinTab rest

/-! ### Exact fractions standing for Python floats -/

/-- Python float values idealized as exact fractions.  The representation is
not normalized, so all arithmetic is gcd-free and evaluates by kernel
reduction; denominators produced by the pipeline are positive. -/
structure Frac where
  num : Int
  den : Nat
deriving DecidableEq, Repr

instance : OfNat Frac n := ⟨⟨(n : Int), 1⟩⟩

instance : LT Frac := ⟨fun a b => a.num * (b.den : Int) < b.num * (a.den : Int)⟩

instance : LE Frac := ⟨fun a b => a.num * (b.den : Int) ≤ b.num * (a.den : Int)⟩

instance : DecidableRel (α := Frac) (· < ·) :=
  fun a b => inferInstanceAs (Decidable (a.num * (b.den : Int) < b.num * (a.den : Int)))

instance : DecidableRel (α := Frac) (· ≤ ·) :=
  fun a b => inferInstanceAs (Decidable (a.num * (b.den : Int) ≤ b.num * (a.den : Int)))

/-- Product of two fractions (Python float multiplication, idealized). -/
def Frac.mul (a b : Frac) : Frac := ⟨a.num * b.num, a.den * b.den⟩

/-- Sum of two fractions (Python float addition, idealized). -/
def Frac.add (a b : Frac) : Frac := ⟨a.num * b.den + b.num * a.den, a.den * b.den⟩

/-- Quotient of a fraction by a natural count (the division in the mean). -/
def Frac.divNat (a : Frac) (n : Nat) : Frac := ⟨a.num, a.den * n⟩

/-- Sum of a list of fractions, from zero, as the Python sum builtin. -/
def fracSum (l : List Frac) : Frac := l.foldl Frac.add 0

/-- Powers of ten. -/
def pow10 (k : Nat) : Nat := 10 ^ k

/-- Truncation toward zero, as the Python int conversion of a float. -/
def fracTrunc (q : Frac) : Int :=
  if q.num < 0 then -((-q.num).fdiv (q.den : Int)) else q.num.fdiv (q.den : Int)

/-- Round q * s to the nearest integer, ties to even: the rounding performed
by Python fixed-point float formatting (here on the exact value). -/
def roundHalfEvenScaled (q : Frac) (s : Nat) : Int :=
  let d : Int := q.den
  let n := q.num * s
  let f := n.fdiv d
  let r := n - f * d
  if 2 * r < d then f
  else if d < 2 * r then f + 1
  else if f % 2 = 0 then f else f + 1

/-- Python formatting of a float with zero decimal places (the .0f spec):
round half to even to an integer and print it. -/
def fmt0f (q : Frac) : String := intToStr (roundHalfEvenScaled q 1)

/-- Python formatting of a float with two decimal places (the .2f spec). -/
def fmt2f (q : Frac) : String :=
  let n := roundHalfEvenScaled q 100
  (if n < 0 then "-" else "") ++ natToStr (n.natAbs / 100) ++ "." ++
    zeroPadTo (natToStr (n.natAbs % 100)) 2

/-- Smallest number of decimal digits after the point that represents q
exactly, if at most eighteen suffice. -/
def decExp (q : Frac) : Option Nat :=
  (List.range 19).find? (fun k => pow10 k % q.den == 0)

/-- Python str of a float, idealized on exact fractions: minimal decimal
digits, at least one digit after the point.  Exponent notation and values
with no short exact decimal form are outside the model (the pipeline only
builds finite decimals); such values fall back to a plain fraction
rendering. -/
def pyFloatStr (q : Frac) : String :=
  match decExp q with
  | some k0 =>
    let k := max k0 1
    let m := q.num.natAbs * (pow10 k / q.den)
    (if q.num < 0 then "-" else "") ++ natToStr (m / pow10 k) ++ "." ++
      zeroPadTo (natToStr (m % pow10 k)) k
  | none => (if q.num < 0 then "-" else "") ++ natToStr q.num.natAbs ++ "/" ++ natToStr q.den

/-- Python float of a string: strip whitespace, optional sign, decimal
digits with an optional single point, at least one digit.  Exponent
notation, infinities, nan and digit underscores are not modelled. -/
def parseFloat (s : String) : Option Frac :=
  let cs := pyStripChars s.data
  let signedPart : Bool × List Char :=
    match cs with
    | '-' :: rest => (true, rest)
    | '+' :: rest => (false, rest)
    | _ => (false, cs)
  let neg := signedPart.1
  let body := signedPart.2
  let intPart := body.takeWhile Char.isDigit
  let rest := body.dropWhile Char.isDigit
  let build (intD fracD : List Char) : Frac :=
    let m := digitsToNat (intD ++ fracD)
    ⟨if neg then -(m : Int) else (m : Int), pow10 fracD.length⟩
  match rest with
  | [] => if intPart.isEmpty then none else some (build intPart [])
  | '.' :: fracPart =>
    if fracPart.all Char.isDigit ∧ ¬(intPart.isEmpty ∧ fracPart.isEmpty) then
      some (build intPart fracPart)
    else none
  | _ => none

/-! ### The record loader (form_records and read_and_validate_file) -/

/-- Required header columns (REQUIRED_COLUMNS in the source). -/
def REQUIRED_COLUMNS : List String := ["id", "email", "name", "department", "hours_worked"]

/-- The rate column candidates (RATE_COLUMNS in the source), written in the
order of the set literal.  Python iterates this set in an unspecified,
hash-dependent order, so functions consuming it take the iteration order as
an explicit list argument. -/
def rateColumnsLiteral : List String := ["hourly_rate", "rate", "salary"]

/-- A validated employee record: the dictionary appended by form_records. -/
structure Record where
  name : String
  department : String
  hours : Frac
  rate : Frac
  payout : Frac
deriving DecidableEq, Repr

/-- A printed row-level diagnostic, carrying the reported line number:
either the field-count skip message of read_and_validate_file or the bad
data message of form_records. -/
inductive Diag where
  | fieldCount (lineNo : Nat)
  | parseFail (lineNo : Nat)
deriving DecidableEq, Repr

/-- Lookup in a Python dict built by dict(zip(header, parts)): for a
duplicated key the last binding wins. -/
def dictLookup (k : String) : List (String × String) → Option String
  | [] => none
  | (k', v) :: rest =>
    match dictLookup k rest with
    | some v' => some v'
    | none => if k' = k then some v else none

/-- Error message for a missing required column (transliterated). -/
def missingColumnMsg (c : String) : String := "Missing required column " ++ c

/-- Error message for a missing rate column (transliterated). -/
def missingRateMsg : String := "Missing rate column"

/-- Error message of the unsupported-report branch of main (transliterated). -/
def unsupportedReportMsg : String := "Report type not implemented"

/-- The fallible part of one iteration of the form_records loop: extract and
strip name and department, parse hours_worked and the rate column.  A
missing key or failed parse (KeyError or ValueError in the source) yields
none. -/
def convertRow (parts : List (String × String)) (rateColumn : String) :
    Option (String × String × Frac × Frac) := do
  let name ← dictLookup "name" parts
  let department ← dictLookup "department" parts
  let hoursRaw ← dictLookup "hours_worked" parts
  let hours ← parseFloat hoursRaw
  let rateRaw ← dictLookup rateColumn parts
  let rate ← parseFloat rateRaw
  pure (pyStrip name, pyStrip department, hours, rate)

/-- The form_records loop: the first argument is the line number assigned to
the current row (the source enumerates the surviving rows from 2).  Parse
failures produce a diagnostic and skip; empty names or departments and
negative hours or rates are skipped silently; accepted rows get
payout = hours * rate. -/
def formRecordsAux (rateColumn : String) :
    Nat → List (List (String × String)) → List Record × List Diag
  | _, [] => ([], [])
  | ln, parts :: rest =>
    let r := formRecordsAux rateColumn (ln + 1) rest
    match convertRow parts rateColumn with
    | none => (r.1, Diag.parseFail ln :: r.2)
    | some (name, department, hours, rate) =>
      if name = "" ∨ department = "" ∨ hours < 0 ∨ rate < 0 then r
      else
        ({ name := name, department := department, hours := hours, rate := rate,
           payout := hours.mul rate } :: r.1, r.2)

/-- form_records of the source: validate raw rows into records, numbering
diagnostics from 2.  (The mean-payout and max-hours computations of the
source are dead code with no observable effect and are not modelled.) -/
def formRecords (rows : List (List (String × String))) (rateColumn : String) :
    List Record × List Diag :=
  formRecordsAux rateColumn 2 rows

/-- The row-mapping loop of read_and_validate_file: strip and split each
data line; a line whose field count differs from the header is skipped with
a field-count diagnostic naming its file line number, the others are zipped
with the header.  The first argument is the line number of the first data
line (2 at the call site). -/
def mapRows (header : List String) :
    Nat → List String → List (List (String × String)) × List Diag
  | _, [] => ([], [])
  | ln, line :: rest =>
    let r := mapRows header (ln + 1) rest
    let parts := splitComma (pyStrip line)
    if parts.length ≠ header.length then (r.1, Diag.fieldCount ln :: r.2)
    else (header.zip parts :: r.1, r.2)

/-- Rate-column resolution of read_and_validate_file: the first element of
the candidate iteration order that occurs in the header (the source writes
next over a generator ranging over the candidate set). -/
def resolveRateColumn (validRateKeys : List String) (header : List String) : Option String :=
  validRateKeys.find? (fun c => header.contains c)

/-- read_and_validate_file of the source, on the lines of an existing file
(the existence check and file reading are outside the embedding).  Returns
the validated records together with the printed row diagnostics, or the
raised error message.  validRateKeys is the candidate set in its iteration
order. -/
def readAndValidateLines (fileLines : List String) (validRateKeys : List String) :
    Except String (List Record × List Diag) :=
  match fileLines with
  | [] => .ok ([], [])
  | headerLine :: dataLines =>
    let header := splitComma (pyStrip headerLine)
    match REQUIRED_COLUMNS.find? (fun c => !(header.contains c)) with
    | some c => .error (missingColumnMsg c)
    | none =>
      match resolveRateColumn validRateKeys header with
      | none => .error missingRateMsg
      | some rateColumn =>
        let mapped := mapRows header 2 dataLines
        let formed := formRecords mapped.1 rateColumn
        .ok (formed.1, mapped.2 ++ formed.2)

/-- Records contributed by one file in the loop of main: the loader result,
or nothing when the loader raised (the except branch prints and skips). -/
def fileRecords (fileLines : List String) (validRateKeys : List String) : List Record :=
  match readAndValidateLines fileLines validRateKeys with
  | .ok (rs, _) => rs
  | .error _ => []

/-- The record-collection loop of main: each file's records are appended to
the running list, in file-argument order. -/
def collectRecords (files : List (List String)) (validRateKeys : List String) : List Record :=
  files.foldl (fun acc f => acc ++ fileRecords f validRateKeys) []

/-! ### The report generators -/

/-- One step of grouping by a string key into a Python dict of lists that
preserves insertion order: append to the existing group, or add a new
(key, singleton) entry at the end.  This models defaultdict(list) with
ordered dict iteration. -/
def groupAccum (key : α → String) (val : α → β)
    (g : List (String × List β)) (a : α) : List (String × List β) :=
  if ∃ p ∈ g, p.1 = key a then
    g.map (fun p => if p.1 = key a then (p.1, p.2 ++ [val a]) else p)
  else g ++ [(key a, [val a])]

/-- The grouping loop of generate_payout_report: records by department. -/
def groupByDept (records : List Record) : List (String × List Record) :=
  records.foldl (groupAccum (fun r => r.department) id) []

/-- The grouping loop of generate_mean_rate_report: rates by department. -/
def groupRates (records : List Record) : List (String × List Frac) :=
  records.foldl (groupAccum (fun r => r.department) (fun r => r.rate)) []

/-- First occurrence of each string, in first-seen order: the key order of
an insertion-ordered dict. -/
def firstSeen (l : List String) : List String :=
  l.foldl (fun acc d => if d ∈ acc then acc else acc ++ [d]) []

/-- The four report columns of generate_payout_report. -/
inductive Col where
  | name
  | hours
  | rate
  | payout
deriving DecidableEq, Repr

/-- The columns list of the source, in order. -/
def columnsOrder : List Col := [Col.name, Col.hours, Col.rate, Col.payout]

/-- Header caption of a column. -/
def colHeader : Col → String
  | .name => "name"
  | .hours => "hours"
  | .rate => "rate"
  | .payout => "payout"

/-- The string whose length the width computation uses for one record and
column: the .0f rendering for float values, str for others.  In pipeline
records the name is the only non-float field. -/
def widthValue (r : Record) : Col → String
  | .name => r.name
  | .hours => fmt0f r.hours
  | .rate => fmt0f r.rate
  | .payout => fmt0f r.payout

/-- Column width of one department block: the maximum of the caption length
and the width strings of all its records. -/
def colWidth (recs : List Record) (c : Col) : Nat :=
  (recs.map (fun r => (widthValue r c).length)).foldl max (colHeader c).length

/-- The cell text of the data rows: a dollar sign followed by the truncated
integer for payout, str of the value otherwise. -/
def renderCell (r : Record) : Col → String
  | .name => r.name
  | .hours => pyFloatStr r.hours
  | .rate => pyFloatStr r.rate
  | .payout => "$" ++ intToStr (fracTrunc r.payout)

/-- A data row of a department block: each cell left-justified to its column
width, tab separated. -/
def rowLine (recs : List Record) (r : Record) : String :=
  joinTab (columnsOrder.map (fun c => padRightTo (renderCell r c) (colWidth recs c)))

/-- The printed lines of one department block: a leading blank line and the
department name (one print of a newline-led string), the caption row, the
dash row, then one row per record. -/
def deptBlockLines (g : String × List Record) : List String :=
  "" :: g.1 ::
    joinTab (columnsOrder.map (fun c => padRightTo (colHeader c) (colWidth g.2 c))) ::
    joinTab (columnsOrder.map (fun c => String.mk (List.replicate (colWidth g.2 c) '-'))) ::
    g.2.map (rowLine g.2)

/-- generate_payout_report of the source, as the list of printed lines. -/
def generatePayoutReport (records : List Record) : List String :=
  (groupByDept records).flatMap deptBlockLines

/-- The mean of a list of rates as computed in generate_mean_rate_report:
sum over length, zero for an empty list. -/
def meanOf (rates : List Frac) : Frac :=
  if rates.isEmpty then 0 else (fracSum rates).divNat rates.length

/-- generate_mean_rate_report of the source, as the list of printed lines:
a blank line and the fixed captions (one print of a newline-led string),
the fixed dash line, then one line per department with the name
left-justified to width ten, a tab, and the mean to two decimals. -/
def generateMeanRateReport (records : List Record) : List String :=
  "" :: "Department\tMean Rate" :: "----------\t---------" ::
    (groupRates records).map
      (fun p => padRightTo p.1 10 ++ "\t" ++ fmt2f (meanOf p.2))

/-- The report dispatch at the end of main: the supported kinds produce
their report lines, anything else is the error branch printing to stderr
and exiting with status 1, producing no report output. -/
def runReport (kind : String) (records : List Record) : Except (Nat × String) (List String) :=
  if kind = "payout" then .ok (generatePayoutReport records)
  else if kind = "mean_rate_department" then .ok (generateMeanRateReport records)
  else .error (1, unsupportedReportMsg)

/-! ### Specification-side definitions, for comparison with the code -/

/-- Modelled from the spec, for comparison with resolveRateColumn: the rate
candidate appearing first in header order. -/
def headerFirstCandidate (validRateKeys header : List String) : Option String :=
  header.find? (fun c => validRateKeys.contains c)

/-- Modelled from the spec, for comparison with the width computation: a
floor-formatted (integer-truncated) rendering of a float value. -/
def floorWidthStr (q : Frac) : String := intToStr (fracTrunc q)

/-- A raw row used by concrete witnesses. -/
def sampleRow : List (String × String) :=
  [("name", "Alice"), ("department", "HR"), ("hours_worked", "40"), ("rate", "50")]

/-- The record formed from sampleRow with the rate column named rate. -/
def sampleRecord : Record :=
  { name := "Alice", department := "HR", hours := ⟨40, 1⟩, rate := ⟨50, 1⟩,
    payout := ⟨2000, 1⟩ }

/-- A record with payout 123456, used by a width counterexample. -/
def wideRecord : Record :=
  { name := "A", department := "D", hours := ⟨123456, 1⟩, rate := ⟨1, 1⟩,
    payout := ⟨123456, 1⟩ }

/-- A record with hours 99999.5, used by a width counterexample. -/
def halfRecord : Record :=
  { name := "B", department := "D", hours := ⟨199999, 2⟩, rate := ⟨1, 1⟩,
    payout := ⟨199999, 2⟩ }

/-! ### Helper lemmas -/

theorem Frac.lt_zero_iff (a : Frac) : a < 0 ↔ a.num < 0 := by
  show a.num * ((0 : Frac).den : Int) < (0 : Frac).num * (a.den : Int) ↔ a.num < 0
  show a.num * ((1 : Nat) : Int) < (0 : Int) * (a.den : Int) ↔ a.num < 0
  simp

theorem Frac.zero_le_iff (a : Frac) : 0 ≤ a ↔ 0 ≤ a.num := by
  show (0 : Frac).num * (a.den : Int) ≤ a.num * (((0 : Frac).den : Nat) : Int) ↔ 0 ≤ a.num
  show (0 : Int) * (a.den : Int) ≤ a.num * ((1 : Nat) : Int) ↔ 0 ≤ a.num
  simp

theorem Frac.zero_le_of_not_lt_zero {a : Frac} (h : ¬ a < 0) : 0 ≤ a := by
  rw [Frac.lt_zero_iff] at h
  rw [Frac.zero_le_iff]
  omega

theorem padRightTo_length (s : String) (w : Nat) :
    (padRightTo s w).length = max w s.length := by
  have h : (padRightTo s w).length = s.length + (w - s.length) := by
    show (s.data ++ (List.replicate (w - s.length) ' ')).length = _
    rw [List.length_append, List.length_replicate]
    rfl
  rw [h]
  omega

theorem foldl_max_init (l : List Nat) (a : Nat) :
    l.foldl max a = max a (l.foldl max 0) := by
  induction l generalizing a with
  | nil => simp
  | cons x xs ih =>
    simp only [List.foldl_cons]
    rw [ih (max a x), ih (max 0 x)]
    omega

theorem elem_le_foldl_max {a : Nat} {l : List Nat} (h : a ∈ l) (b : Nat) :
    a ≤ l.foldl max b := by
  induction l generalizing b with
  | nil => cases h
  | cons x xs ih =>
    simp only [List.foldl_cons]
    rcases List.mem_cons.mp h with rfl | hmem
    · rw [foldl_max_init]; omega
    · exact ih hmem _

theorem firstSeen_append (l : List String) (d : String) :
    firstSeen (l ++ [d]) =
      if d ∈ firstSeen l then firstSeen l else firstSeen l ++ [d] := by
  show (l ++ [d]).foldl _ [] = _
  rw [List.foldl_append]
  rfl

theorem mem_firstSeen (l : List String) (d : String) : d ∈ firstSeen l ↔ d ∈ l := by
  induction l using List.reverseRecOn generalizing d with
  | nil => simp [firstSeen]
  | append_singleton xs x ih =>
    rw [firstSeen_append]
    by_cases h : x ∈ firstSeen xs
    · rw [if_pos h]
      have hx : x ∈ xs := (ih x).mp h
      simp only [ih, List.mem_append, List.mem_singleton]
      constructor
      · exact Or.inl
      · rintro (hd | rfl)
        · exact hd
        · exact hx
    · rw [if_neg h]
      simp [ih]

theorem groupAccum_spec (key : α → String) (val : α → β) (l : List α) :
    l.foldl (groupAccum key val) [] =
      (firstSeen (l.map key)).map
        (fun d => (d, (l.filter (fun a => key a == d)).map val)) := by
  induction l using List.reverseRecOn with
  | nil => rfl
  | append_singleton xs a ih =>
    rw [List.foldl_append, ih, List.foldl_cons, List.foldl_nil, List.map_append,
      List.map_singleton, firstSeen_append, groupAccum]
    have hexists :
        (∃ p ∈ (firstSeen (xs.map key)).map
            (fun d => (d, (xs.filter (fun a' => key a' == d)).map val)), p.1 = key a) ↔
          key a ∈ firstSeen (xs.map key) := by
      constructor
      · rintro ⟨p, hp, hpk⟩
        obtain ⟨d, hd, rfl⟩ := List.mem_map.mp hp
        have hdk : d = key a := hpk
        rwa [hdk] at hd
      · intro hmem
        exact ⟨_, List.mem_map_of_mem _ hmem, rfl⟩
    have hfiltersplit : ∀ d : String,
        ((xs ++ [a]).filter (fun a' => key a' == d)).map val =
          (xs.filter (fun a' => key a' == d)).map val ++
            (if key a = d then [val a] else []) := by
      intro d
      rw [List.filter_append, List.map_append]
      by_cases hd : key a = d
      · simp [List.filter_cons, List.filter_nil, hd]
      · simp [List.filter_cons, List.filter_nil, beq_iff_eq, hd]
    by_cases hmem : key a ∈ firstSeen (xs.map key)
    · rw [if_pos (hexists.mpr hmem), if_pos hmem, List.map_map]
      apply List.map_congr_left
      intro d _
      dsimp only [Function.comp_apply]
      by_cases hd : d = key a
      · subst hd
        rw [if_pos rfl, hfiltersplit (key a), if_pos rfl]
      · have hne : ¬ key a = d := fun hc => hd hc.symm
        rw [if_neg hd, hfiltersplit d, if_neg hne, List.append_nil]
    · rw [if_neg (fun hc => hmem (hexists.mp hc)), if_neg hmem, List.map_append,
        List.map_singleton]
      congr 1
      · apply List.map_congr_left
        intro d hd
        have hne : ¬ key a = d := by
          rintro rfl
          exact hmem hd
        rw [hfiltersplit d, if_neg hne, List.append_nil]
      · have hnil : xs.filter (fun a' => key a' == key a) = [] := by
          rw [List.filter_eq_nil_iff]
          intro a' ha' hbeq
          apply hmem
          rw [mem_firstSeen, List.mem_map]
          exact ⟨a', ha', eq_of_beq hbeq⟩
        rw [hfiltersplit (key a), hnil, if_pos rfl]
        simp

/-! ### Claim theorems -/

/-- C4: every report kind outside payout and mean_rate_department that
reaches the generator dispatch fails with exit status 1 and the
unsupported-report message, emitting no report output. -/
theorem unsupported_report_fails (kind : String) (records : List Record)
    (h1 : kind ≠ "payout") (h2 : kind ≠ "mean_rate_department") :
    runReport kind records = .error (1, unsupportedReportMsg) := by
  rw [runReport, if_neg h1, if_neg h2]

/-- Witness for C4 at the concrete kind total. -/
theorem unsupported_report_fails_witness :
    runReport "total" [] = .error (1, unsupportedReportMsg) :=
  unsupported_report_fails "total" [] (by decide) (by decide)

/-- C9: an empty file (no lines) and a file holding only a valid header
both load to an empty record sequence, with no error and no diagnostics. -/
theorem empty_and_header_only_ok :
    (∀ validRateKeys, readAndValidateLines [] validRateKeys = .ok ([], []))
    ∧ (∀ headerLine validRateKeys,
        (∀ c ∈ REQUIRED_COLUMNS, c ∈ splitComma (pyStrip headerLine)) →
        (∃ k ∈ validRateKeys, k ∈ splitComma (pyStrip headerLine)) →
        readAndValidateLines [headerLine] validRateKeys = .ok ([], [])) := by
  constructor
  · intro validRateKeys
    rfl
  · intro headerLine validRateKeys hreq hrate
    have hfind : REQUIRED_COLUMNS.find?
        (fun c => !((splitComma (pyStrip headerLine)).contains c)) = none := by
      rw [List.find?_eq_none]
      intro c hc
      simp [hreq c hc]
    have hres : (resolveRateColumn validRateKeys (splitComma (pyStrip headerLine))).isSome := by
      rw [resolveRateColumn, List.find?_isSome]
      obtain ⟨k, hk, hmem⟩ := hrate
      exact ⟨k, hk, by simpa using hmem⟩
    obtain ⟨rc, hrc⟩ := Option.isSome_iff_exists.mp hres
    simp only [readAndValidateLines, hfind, hrc]
    rfl

/-- Witness for C9 at a concrete header-only file. -/
theorem empty_and_header_only_ok_witness :
    readAndValidateLines ["id,email,name,department,hours_worked,rate"] rateColumnsLiteral =
      .ok ([], []) :=
  empty_and_header_only_ok.2 "id,email,name,department,hours_worked,rate" rateColumnsLiteral
    (by decide) (by decide)

/-- C2 counterexample: with both rate and hourly_rate in a header, the code
picks the candidate-order choice (hourly_rate here), not the candidate that
appears first in header order (rate), and changing the iteration order of
the candidate set changes the outcome. -/
theorem rate_column_not_header_order :
    resolveRateColumn rateColumnsLiteral
        ["id", "email", "name", "department", "hours_worked", "rate", "hourly_rate"] =
      some "hourly_rate"
    ∧ headerFirstCandidate rateColumnsLiteral
        ["id", "email", "name", "department", "hours_worked", "rate", "hourly_rate"] =
      some "rate"
    ∧ resolveRateColumn ["rate", "hourly_rate", "salary"]
        ["id", "email", "name", "department", "hours_worked", "rate", "hourly_rate"] ≠
      resolveRateColumn rateColumnsLiteral
        ["id", "email", "name", "department", "hours_worked", "rate", "hourly_rate"] := by
  refine ⟨rfl, rfl, ?_⟩
  decide

/-- C2 amended: the selected rate column is present in the header and is the
first present candidate in the candidate iteration order (all candidates
before it are absent from the header); the choice is thus a function of the
candidate order, not of header order. -/
theorem rate_column_candidate_order (validRateKeys header : List String) (c : String)
    (h : resolveRateColumn validRateKeys header = some c) :
    c ∈ header ∧
      ∃ pre post, validRateKeys = pre ++ c :: post ∧ ∀ k ∈ pre, k ∉ header := by
  induction validRateKeys with
  | nil => simp [resolveRateColumn] at h
  | cons k ks ih =>
    by_cases hk : (header.contains k) = true
    · rw [resolveRateColumn, List.find?_cons_of_pos _ hk] at h
      obtain rfl : k = c := Option.some.inj h
      refine ⟨by simpa using hk, [], ks, rfl, ?_⟩
      intro k' hk'
      cases hk'
    · rw [resolveRateColumn, List.find?_cons_of_neg _ (by simpa using hk)] at h
      obtain ⟨hmem, pre, post, heq, hpre⟩ := ih h
      refine ⟨hmem, k :: pre, post, by rw [heq]; rfl, ?_⟩
      intro k' hk'
      rcases List.mem_cons.mp hk' with rfl | hk'mem
      · intro hmem'
        exact hk (by simpa using hmem')
      · exact hpre k' hk'mem

/-- Witness for C2 amended at a concrete header with a single rate column. -/
theorem rate_column_candidate_order_witness :
    "rate" ∈ ["id", "email", "name", "department", "hours_worked", "rate"] ∧
      ∃ pre post, rateColumnsLiteral = pre ++ "rate" :: post ∧
        ∀ k ∈ pre, k ∉ ["id", "email", "name", "department", "hours_worked", "rate"] :=
  rate_column_candidate_order rateColumnsLiteral
    ["id", "email", "name", "department", "hours_worked", "rate"] "rate" (by decide)

/-- C5: evaluation at the failing input.  The second file line is skipped
for its field count and correctly reported as line 2; the parse failure on
file line 3 (the Bob row with non-numeric hours) is then also reported as
line 2, because form_records numbers the surviving rows from 2 instead of
using their file line numbers. -/
theorem parse_diagnostic_wrong_line :
    readAndValidateLines
      ["id,email,name,department,hours_worked,rate",
       "1,a,Alice,HR,40",
       "2,b,Bob,HR,xx,50"] rateColumnsLiteral =
      .ok ([], [Diag.fieldCount 2, Diag.parseFail 2]) := by
  rfl

/-- C7 counterexample: a twelve-character department name is emitted in
full, not truncated to ten characters, and short names are padded on the
right (left-justified), not left-padded. -/
theorem mean_rate_no_truncation :
    generateMeanRateReport
      [{ name := "A", department := "Engineering1", hours := ⟨1, 1⟩, rate := ⟨50, 1⟩,
         payout := ⟨50, 1⟩ }] =
      ["", "Department\tMean Rate", "----------\t---------", "Engineering1\t50.00"]
    ∧ "Engineering1".length = 12
    ∧ padRightTo "HR" 10 = "HR        " := by
  decide

/-- C7 amended: each department line carries the department name
left-justified and right-padded with spaces to a minimum width of ten
(never truncated), a tab, and the arithmetic mean of that department's
rates rendered with two decimal digits; departments appear in first-seen
order. -/
theorem mean_rate_report_lines (records : List Record) :
    generateMeanRateReport records =
      "" :: "Department\tMean Rate" :: "----------\t---------" ::
        (firstSeen (records.map (fun r => r.department))).map
          (fun d => padRightTo d 10 ++ "\t" ++
            fmt2f (meanOf ((records.filter (fun r => r.department == d)).map
              (fun r => r.rate)))) := by
  rw [generateMeanRateReport, groupRates, groupAccum_spec, List.map_map]
  rfl

/-- C1: every record emitted by form_records (and hence by
read_and_validate_file) has a non-empty name and department, non-negative
hours and rate, and payout equal to hours times rate. -/
theorem records_satisfy_invariants :
    (∀ rows rateColumn r, r ∈ (formRecords rows rateColumn).1 →
      r.name ≠ "" ∧ r.department ≠ "" ∧ 0 ≤ r.hours ∧ 0 ≤ r.rate ∧
        r.payout = r.hours.mul r.rate)
    ∧ (∀ fileLines validRateKeys out r,
        readAndValidateLines fileLines validRateKeys = .ok out → r ∈ out.1 →
        r.name ≠ "" ∧ r.department ≠ "" ∧ 0 ≤ r.hours ∧ 0 ≤ r.rate ∧
          r.payout = r.hours.mul r.rate) := by
  have main : ∀ rateColumn ln rows (r : Record), r ∈ (formRecordsAux rateColumn ln rows).1 →
      r.name ≠ "" ∧ r.department ≠ "" ∧ 0 ≤ r.hours ∧ 0 ≤ r.rate ∧
        r.payout = r.hours.mul r.rate := by
    intro rateColumn ln rows
    induction rows generalizing ln with
    | nil =>
      intro r h
      cases h
    | cons parts rest ih =>
      intro r h
      cases hcv : convertRow parts rateColumn with
      | none =>
        simp only [formRecordsAux, hcv] at h
        exact ih (ln + 1) r h
      | some tup =>
        obtain ⟨name, department, hours, rate⟩ := tup
        simp only [formRecordsAux, hcv] at h
        by_cases hg : name = "" ∨ department = "" ∨ hours < 0 ∨ rate < 0
        · rw [if_pos hg] at h
          exact ih (ln + 1) r h
        · rw [if_neg hg] at h
          push_neg at hg
          rcases List.mem_cons.mp h with rfl | hmem
          · exact ⟨hg.1, hg.2.1, Frac.zero_le_of_not_lt_zero hg.2.2.1,
              Frac.zero_le_of_not_lt_zero hg.2.2.2, rfl⟩
          · exact ih (ln + 1) r hmem
  refine ⟨fun rows rateColumn r h => main rateColumn 2 rows r h, ?_⟩
  intro fileLines validRateKeys out r hok hmem
  cases fileLines with
  | nil =>
    obtain rfl := (Except.ok.inj hok)
    cases hmem
  | cons headerLine dataLines =>
    cases hfind : REQUIRED_COLUMNS.find?
        (fun c => !((splitComma (pyStrip headerLine)).contains c)) with
    | some c =>
      simp only [readAndValidateLines, hfind] at hok
      exact Except.noConfusion hok
    | none =>
      cases hres : resolveRateColumn validRateKeys (splitComma (pyStrip headerLine)) with
      | none =>
        simp only [readAndValidateLines, hfind, hres] at hok
        exact Except.noConfusion hok
      | some rc =>
        simp only [readAndValidateLines, hfind, hres] at hok
        obtain rfl := (Except.ok.inj hok)
        exact main rc 2 _ r hmem

/-- Witness for C1 at a concrete accepted row. -/
theorem records_satisfy_invariants_witness :
    sampleRecord ∈ (formRecords [sampleRow] "rate").1 ∧
      (sampleRecord.name ≠ "" ∧ sampleRecord.department ≠ "" ∧ 0 ≤ sampleRecord.hours ∧
        0 ≤ sampleRecord.rate ∧ sampleRecord.payout = sampleRecord.hours.mul sampleRecord.rate) :=
  ⟨by decide, records_satisfy_invariants.1 [sampleRow] "rate" sampleRecord (by decide)⟩

/-- C3: files are merged in argument order with per-file order preserved,
and both report groupings list departments in first-seen order over the
merged sequence, each group holding that department's records (or rates)
in merged-sequence order. -/
theorem merge_and_grouping_order :
    (∀ file1 file2 validRateKeys,
      collectRecords [file1, file2] validRateKeys =
        fileRecords file1 validRateKeys ++ fileRecords file2 validRateKeys)
    ∧ (∀ records : List Record, groupByDept records =
        (firstSeen (records.map (fun r => r.department))).map
          (fun d => (d, records.filter (fun r => r.department == d))))
    ∧ (∀ records : List Record, groupRates records =
        (firstSeen (records.map (fun r => r.department))).map
          (fun d => (d, (records.filter (fun r => r.department == d)).map
            (fun r => r.rate))))
    ∧ (∀ records : List Record, generatePayoutReport records =
        ((firstSeen (records.map (fun r => r.department))).map
          (fun d => (d, records.filter (fun r => r.department == d)))).flatMap
          deptBlockLines) := by
  have hg : ∀ records : List Record, groupByDept records =
      (firstSeen (records.map (fun r => r.department))).map
        (fun d => (d, records.filter (fun r => r.department == d))) := by
    intro records
    refine (groupAccum_spec (fun r : Record => r.department) id records).trans ?_
    simp [List.map_id]
  refine ⟨?_, hg, ?_, ?_⟩
  · intro file1 file2 validRateKeys
    rfl
  · intro records
    exact groupAccum_spec (fun r : Record => r.department) (fun r => r.rate) records
  · intro records
    rw [generatePayoutReport, hg records]

/-- C6 counterexample: a payout cell (dollar sign plus truncated integer)
of length seven exceeds its computed column width of six, and a 99999.5
hours value is width-computed as 100000 (round half to even; six
characters) where floor-formatting would give 99999 (five characters, the
same as the caption length), so the computed width of six is not the
maximum over floor-formatted strings. -/
theorem payout_width_counterexample :
    (renderCell wideRecord Col.payout).length = 7
    ∧ colWidth [wideRecord] Col.payout = 6
    ∧ colWidth [halfRecord] Col.hours = 6
    ∧ (floorWidthStr halfRecord.hours).length = 5
    ∧ (colHeader Col.hours).length = 5 := by
  decide

/-- C6 amended: the computed column width is exactly the maximum of the
caption length and the lengths of the width strings (floats rendered by
rounding half to even to an integer, not by floor-truncation); caption and
width strings always fit; name cells always fit; and a rendered cell is
padded to exactly the column width when it fits, while a longer cell keeps
its own length (so payout cells, whose dollar sign is not counted in the
width, can overflow). -/
theorem payout_column_width_max (recs : List Record) (r : Record) (h : r ∈ recs) :
    (∀ c, colWidth recs c =
        max (colHeader c).length
          ((recs.map (fun x => (widthValue x c).length)).foldl max 0))
    ∧ (∀ c, (colHeader c).length ≤ colWidth recs c ∧
        (widthValue r c).length ≤ colWidth recs c)
    ∧ (renderCell r Col.name).length ≤ colWidth recs Col.name
    ∧ (∀ c, (padRightTo (renderCell r c) (colWidth recs c)).length =
        max (colWidth recs c) (renderCell r c).length) := by
  have hw : ∀ c, colWidth recs c =
      max (colHeader c).length
        ((recs.map (fun x => (widthValue x c).length)).foldl max 0) :=
    fun c => foldl_max_init _ _
  refine ⟨hw, ?_, ?_, fun c => padRightTo_length _ _⟩
  · intro c
    constructor
    · rw [hw c]
      omega
    · show (widthValue r c).length ≤
        (recs.map (fun x => (widthValue x c).length)).foldl max (colHeader c).length
      exact elem_le_foldl_max
        (List.mem_map_of_mem (fun x => (widthValue x c).length) h) _
  · show (widthValue r Col.name).length ≤
      (recs.map (fun x => (widthValue x Col.name).length)).foldl max
        (colHeader Col.name).length
    exact elem_le_foldl_max
      (List.mem_map_of_mem (fun x => (widthValue x Col.name).length) h) _

/-- Witness for C6 amended at a concrete one-record block. -/
theorem payout_column_width_max_witness :
    sampleRecord ∈ [sampleRecord] ∧
      (renderCell sampleRecord Col.name).length ≤ colWidth [sampleRecord] Col.name :=
  ⟨by decide, (payout_column_width_max [sampleRecord] sampleRecord (by decide)).2.2.1⟩

/-- C8: the row-mapping loop keeps exactly the data lines whose comma-split
field count equals the header field count (in order, zipped with the
header), emits one field-count diagnostic per mismatching line, and on the
concrete two-row file of the repository test suite the mismatching Alice
row is dropped while the sibling Bob row is still accepted. -/
theorem malformed_rows_skipped :
    (∀ header startLn dataLines,
      (mapRows header startLn dataLines).1 =
        (dataLines.filter
          (fun l => (splitComma (pyStrip l)).length == header.length)).map
          (fun l => header.zip (splitComma (pyStrip l)))
      ∧ (mapRows header startLn dataLines).2.length =
          dataLines.countP
            (fun l => !((splitComma (pyStrip l)).length == header.length)))
    ∧ readAndValidateLines
        ["id,email,name,department,hours_worked,rate",
         "1,test,Alice,Marketing,40",
         "2,test,Bob,Sales,35,55"] rateColumnsLiteral =
        .ok ([{ name := "Bob", department := "Sales", hours := ⟨35, 1⟩, rate := ⟨55, 1⟩,
                payout := ⟨1925, 1⟩ }], [Diag.fieldCount 2]) := by
  constructor
  · intro header startLn dataLines
    induction dataLines generalizing startLn with
    | nil => exact ⟨rfl, rfl⟩
    | cons l rest ih =>
      obtain ⟨ih1, ih2⟩ := ih (startLn + 1)
      by_cases h : (splitComma (pyStrip l)).length = header.length
      · have hcond : ¬ ((splitComma (pyStrip l)).length ≠ header.length) := by omega
        have hbeq : ((splitComma (pyStrip l)).length == header.length) = true := by
          simpa using h
        constructor
        · simp only [mapRows, if_neg hcond]
          rw [List.filter_cons, if_pos hbeq, List.map_cons, ih1]
        · simp only [mapRows, if_neg hcond]
          rw [List.countP_cons, ih2]
          simp [hbeq]
      · have hbeq : ((splitComma (pyStrip l)).length == header.length) = false := by
          simpa using h
        constructor
        · simp only [mapRows, if_pos h]
          rw [List.filter_cons, if_neg (by simp [hbeq]), ih1]
        · simp only [mapRows, if_pos h, List.length_cons]
          rw [List.countP_cons, ih2]
          simp [hbeq]
  · rfl

/-- C10: header fields are matched by exact string equality after stripping
the header line as a whole only, so a file whose header carries a required
column name only with surrounding whitespace inside its field is rejected
with the missing-required-column error even though the trimmed field
matches. -/
theorem untrimmed_header_rejected (headerLine : String)
    (dataLines validRateKeys : List String) (c : String)
    (hc : c ∈ REQUIRED_COLUMNS)
    (habs : c ∉ splitComma (pyStrip headerLine))
    (_hvis : c ∈ (splitComma (pyStrip headerLine)).map pyStrip) :
    ∃ c', readAndValidateLines (headerLine :: dataLines) validRateKeys =
      .error (missingColumnMsg c') := by
  have hsome : (REQUIRED_COLUMNS.find?
      (fun c' => !((splitComma (pyStrip headerLine)).contains c'))).isSome := by
    rw [List.find?_isSome]
    refine ⟨c, hc, ?_⟩
    simp [habs]
  obtain ⟨c', hc'⟩ := Option.isSome_iff_exists.mp hsome
  refine ⟨c', ?_⟩
  simp only [readAndValidateLines, hc']

/-- Witness for C10 at a header whose email field carries a leading space. -/
theorem untrimmed_header_rejected_witness :
    ("email" ∈ REQUIRED_COLUMNS ∧
      "email" ∉ splitComma (pyStrip "id, email,name,department,hours_worked,rate") ∧
      "email" ∈ (splitComma (pyStrip "id, email,name,department,hours_worked,rate")).map pyStrip) ∧
    ∃ c', readAndValidateLines ["id, email,name,department,hours_worked,rate"]
        rateColumnsLiteral = .error (missingColumnMsg c') :=
  ⟨⟨by decide, by decide, by decide⟩,
    untrimmed_header_rejected "id, email,name,department,hours_worked,rate" []
      rateColumnsLiteral "email" (by decide) (by decide) (by decide)⟩

end CsvReport
